import Mathlib

/-!
Verification of the instruction-encoding conflict validator: bit-pattern
overlap/subset tests, token normalization, and the conflict report, as a
shallow embedding of the validator source.  32-bit machine words are
modelled as `Nat` with explicit masking by `BIT_MASK_32`; the source's
arbitrary-precision bitwise complement applied under a 32-bit mask is
modelled by `compl32`.
-/

namespace EncValidator

def BIT_MASK_32 : Nat := 2 ^ 32 - 1

/-- Bitwise complement restricted to the 32-bit universe: for operands
below `2 ^ 32` this agrees with the source's arbitrary-precision `~`
because every use site masks the surrounding expression to 32 bits. -/
def compl32 (x : Nat) : Nat := BIT_MASK_32 ^^^ x

/-- `patternsOverlap` from the source: the sets denoted by the two
patterns intersect iff the matches agree on the common mask. -/
def patternsOverlap (aMatch aMask bMatch bMask : Nat) : Bool :=
  let commonMask := (aMask &&& bMask) &&& BIT_MASK_32
  let diff := ((aMatch ^^^ bMatch) &&& commonMask) &&& BIT_MASK_32
  decide (diff = 0)

/-- `isSubsetPattern` from the source. -/
def isSubsetPattern (subsetMatch subsetMask supMatch supMask : Nat) : Bool :=
  let subsetMaskNorm := subsetMask &&& BIT_MASK_32
  let supMaskNorm := supMask &&& BIT_MASK_32
  let subsetMatchNorm := subsetMatch &&& BIT_MASK_32
  let supMatchNorm := supMatch &&& BIT_MASK_32
  let supBitsNotConstrainedBySubset := supMaskNorm &&& compl32 subsetMaskNorm
  if supBitsNotConstrainedBySubset ≠ 0 then false
  else decide (((subsetMatchNorm ^^^ supMatchNorm) &&& supMaskNorm) = 0)

/-- `overlapExampleWord` from the source: the deterministic witness word. -/
def overlapExampleWord (aMatch aMask bMatch bMask : Nat) : Nat :=
  let am := aMatch &&& BIT_MASK_32
  let ak := aMask &&& BIT_MASK_32
  let bm := bMatch &&& BIT_MASK_32
  let bk := bMask &&& BIT_MASK_32
  ((am &&& ak) ||| (bm &&& (bk &&& compl32 ak))) &&& BIT_MASK_32

/-- Membership of a word in the set denoted by a `(match, mask)` pattern:
`S(p) = \x7b w | w &&& mask = match &&& mask \x7d`. -/
def memPattern (w m k : Nat) : Prop := w &&& k = m &&& k

/-- `normalizeEncodingString` from the source: strip all whitespace. -/
def normalizeEncodingString (s : List Char) : List Char :=
  s.filter (fun c => !c.isWhitespace)

/-- The three legal encoding characters. -/
def isEncChar (c : Char) : Bool := c = '0' || c = '1' || c = '-'

/-- Error outcomes of `encodingToMatchMask` in the source (each mirrors
one of its `error` strings). -/
inductive EncError where
  | provideEncoding
  | lengthError (got expected : Nat)
  | alphabetError
  deriving DecidableEq

/-- The accumulation loop of `encodingToMatchMask`: index `i` walks the
normalized string left to right, character `i` driving bit `31 - i`. -/
def encLoop : List Char → Nat → Nat × Nat → Nat × Nat
  | [], _, acc => acc
  | c :: cs, i, (mt, mk) =>
    if c = '-' then encLoop cs (i + 1) (mt, mk)
    else
      encLoop cs (i + 1)
        ((if c = '1' then mt ||| (1 <<< (31 - i)) else mt), mk ||| (1 <<< (31 - i)))

/-- `encodingToMatchMask` from the source. -/
def encodingToMatchMask (encoding : List Char) : Except EncError (Nat × Nat) :=
  let normalized := normalizeEncodingString encoding
  if normalized.isEmpty then .error .provideEncoding
  else if normalized.length ≠ 32 then .error (.lengthError normalized.length 32)
  else if !normalized.all isEncChar then .error .alphabetError
  else .ok (encLoop normalized 0 (0, 0))

/-- The character emitted by `matchMaskToEncoding` for one bit. -/
def encCharOf (m k n : Nat) : Char :=
  if k &&& (1 <<< n) = 0 then '-' else if m &&& (1 <<< n) = 0 then '0' else '1'

/-- The descending-bit loop of `matchMaskToEncoding`: emits characters
for bits `n - 1` down to `0`. -/
def mmLoop (m k : Nat) : Nat → List Char
  | 0 => []
  | n + 1 => encCharOf m k n :: mmLoop m k n

/-- `matchMaskToEncoding` from the source. -/
def matchMaskToEncoding (m k : Nat) : List Char :=
  mmLoop (m &&& BIT_MASK_32) (k &&& BIT_MASK_32) 32

/-- The four conflict classifications of the source. -/
inductive ConflictKind where
  | identical
  | proposedSubsetOfExisting
  | existingSubsetOfProposed
  | partialOverlap
  deriving DecidableEq

/-- The sort key the source assigns to each `ConflictKind`. -/
def conflictKindOrder : ConflictKind → Nat
  | .identical => 0
  | .proposedSubsetOfExisting => 1
  | .existingSubsetOfProposed => 2
  | .partialOverlap => 3

/-- The classification decision of `runEncoderValidation`, first match
winning: byte-identical, then subset either way, else partial overlap. -/
def classifyConflict (matchNorm maskNorm oMatch oMask : Nat) : ConflictKind :=
  if matchNorm = oMatch ∧ maskNorm = oMask then .identical
  else if isSubsetPattern matchNorm maskNorm oMatch oMask then .proposedSubsetOfExisting
  else if isSubsetPattern oMatch oMask matchNorm maskNorm then .existingSubsetOfProposed
  else .partialOverlap

/-- One catalog entry (`allInstructionPatterns` element): the identifier
and its already-normalized pattern. -/
structure CatalogEntry where
  mnemonic : List Char
  matchVal : Nat
  mask : Nat
  deriving DecidableEq

/-- One reported conflict, as assembled by `runEncoderValidation`. -/
structure Conflict where
  other : CatalogEntry
  type : ConflictKind
  commonMask : Nat
  exampleWord : Nat
  deriving DecidableEq

/-- The conflict-collection loop of `runEncoderValidation` over the
catalog, in catalog iteration order. -/
def computeConflicts (matchNorm maskNorm : Nat) (catalog : List CatalogEntry) :
    List Conflict :=
  catalog.filterMap (fun other =>
    if patternsOverlap matchNorm maskNorm other.matchVal other.mask then
      some { other := other
             type := classifyConflict matchNorm maskNorm other.matchVal other.mask
             commonMask := (maskNorm &&& other.mask) &&& BIT_MASK_32
             exampleWord := overlapExampleWord matchNorm maskNorm other.matchVal other.mask }
    else none)

/-- The comparator of the source's conflict sort, as a `Bool` relation. -/
def conflictLE (a b : Conflict) : Bool :=
  decide (conflictKindOrder a.type ≤ conflictKindOrder b.type)

/-- The source's `conflicts.sort(...)`: ECMAScript `Array.prototype.sort`
is stable, modelled by the stable `List.mergeSort`. -/
def sortConflicts (l : List Conflict) : List Conflict :=
  l.mergeSort conflictLE

/-- A hex input field of the validator form: absent, present but not
parseable as hex, or parsed to a numeric value. -/
inductive HexField where
  | empty
  | invalid
  | value (v : Nat)
  deriving DecidableEq

/-- `parseHexToBigInt` outcome on a field (`none` models `null`). -/
def parseHexField : HexField → Option Nat
  | .value v => some v
  | _ => none

/-- JS truthiness of a form field (`Boolean(input.match)` etc.). -/
def hexFieldPresent : HexField → Bool
  | .empty => false
  | _ => true

/-- Validation errors pushed by `runEncoderValidation`, each mirroring
one of its `errors.push(...)` strings. -/
inductive VError where
  | provideInput
  | encError (e : EncError)
  | matchHexError
  | maskHexError
  | illegalMatch
  | consistency
  deriving DecidableEq

/-- The validator form input: an encoding string plus match/mask fields. -/
structure ValidatorInput where
  encoding : List Char
  matchField : HexField
  maskField : HexField

/-- The proposed pattern recorded in the validation result. -/
structure ProposedPattern where
  matchVal : Nat
  mask : Nat
  deriving DecidableEq

/-- The result record set by `runEncoderValidation`. -/
structure ValidationResult where
  errors : List VError
  proposed : Option ProposedPattern
  conflicts : List Conflict
  deriving DecidableEq

/-- The tail of `runEncoderValidation`: bail out with no conflicts when
no pattern was determined, otherwise normalize it and run the catalog
comparison followed by the stable sort. -/
def finalizeValidation (errors : List VError) (mm : Option (Nat × Nat))
    (catalog : List CatalogEntry) : ValidationResult :=
  match mm with
  | none => ⟨errors, none, []⟩
  | some (pm, pk) =>
    let matchNorm := pm &&& BIT_MASK_32
    let maskNorm := pk &&& BIT_MASK_32
    ⟨errors, some ⟨matchNorm, maskNorm⟩,
      sortConflicts (computeConflicts matchNorm maskNorm catalog)⟩

/-- The normalization phase of `runEncoderValidation`: accumulates the
pushed errors and the `proposedMatch`/`proposedMask` pair (`none` models
the `null` state), mirroring the source's control flow. -/
def normalizePhase (input : ValidatorInput) : List VError × Option (Nat × Nat) :=
  let proposedEncoding := normalizeEncodingString input.encoding
  let hasEncoding := !proposedEncoding.isEmpty
  let hasMatchMask := hexFieldPresent input.matchField || hexFieldPresent input.maskField
  let errors0 : List VError :=
    if !hasEncoding && !hasMatchMask then [.provideInput] else []
  let step1 : List VError × Option (Nat × Nat) :=
    if hasEncoding then
      match encodingToMatchMask proposedEncoding with
      | .error e => (errors0 ++ [.encError e], none)
      | .ok (dm, dk) => (errors0, some (dm, dk))
    else (errors0, none)
  if hasMatchMask then
    let matchParsed := parseHexField input.matchField
    let maskParsed := parseHexField input.maskField
    let errors2 := step1.1 ++
      (if matchParsed = none then [VError.matchHexError] else []) ++
      (if maskParsed = none then [VError.maskHexError] else [])
    match matchParsed, maskParsed with
    | some mp, some kp =>
      let matchNorm := mp &&& BIT_MASK_32
      let maskNorm := kp &&& BIT_MASK_32
      let errors3 := errors2 ++
        (if matchNorm &&& compl32 maskNorm ≠ 0 then [VError.illegalMatch] else [])
      if !hasEncoding then (errors3, some (matchNorm, maskNorm))
      else
        match step1.2 with
        | some (dm, dk) =>
          let errors4 := errors3 ++
            (if dm &&& BIT_MASK_32 ≠ matchNorm ∨ dk &&& BIT_MASK_32 ≠ maskNorm then
              [VError.consistency] else [])
          (errors4, some (dm, dk))
        | none => (errors3, none)
    | _, _ => (errors2, step1.2)
  else step1

/-- `runEncoderValidation` from the source, for a given catalog. -/
def runEncoderValidation (catalog : List CatalogEntry) (input : ValidatorInput) :
    ValidationResult :=
  let st := normalizePhase input
  finalizeValidation st.1 st.2 catalog

/-! ### Bit-level helper lemmas -/

theorem testBit_bitmask (i : Nat) : BIT_MASK_32.testBit i = decide (i < 32) := by
  simpa [BIT_MASK_32] using Nat.testBit_two_pow_sub_one 32 i

theorem testBit_compl32 (x i : Nat) :
    (compl32 x).testBit i = ((decide (i < 32)) ^^ x.testBit i) := by
  simp [compl32, testBit_bitmask]

theorem testBit_high {x : Nat} (hx : x < 2 ^ 32) {i : Nat} (hi : ¬ i < 32) :
    x.testBit i = false := by
  have h32 : (2 : Nat) ^ 32 ≤ 2 ^ i := Nat.pow_le_pow_right (by norm_num) (by omega)
  exact Nat.testBit_lt_two_pow (lt_of_lt_of_le hx h32)

theorem land_mask_eq {x : Nat} (hx : x < 2 ^ 32) : x &&& BIT_MASK_32 = x := by
  simpa [BIT_MASK_32] using Nat.and_pow_two_sub_one_of_lt_two_pow hx

theorem land_mask_lt (x : Nat) : x &&& BIT_MASK_32 < 2 ^ 32 := by
  have h : BIT_MASK_32 < 2 ^ 32 := by norm_num [BIT_MASK_32]
  exact Nat.and_lt_two_pow x h

theorem one_shiftLeft_testBit (n b : Nat) : (1 <<< n).testBit b = decide (n = b) := by
  rw [Nat.shiftLeft_eq, one_mul]
  exact Nat.testBit_two_pow

/-! ### The overlap test and the witness word -/

theorem patternsOverlap_eq_true_iff (am ak bm bk : Nat) :
    patternsOverlap am ak bm bk = true ↔
      ((am ^^^ bm) &&& ((ak &&& bk) &&& BIT_MASK_32)) &&& BIT_MASK_32 = 0 := by
  simp [patternsOverlap]

theorem exampleWord_spec (am ak bm bk : Nat)
    (hak : ak < 2 ^ 32) (hbk : bk < 2 ^ 32)
    (hov : patternsOverlap am ak bm bk = true) :
    overlapExampleWord am ak bm bk < 2 ^ 32 ∧
    memPattern (overlapExampleWord am ak bm bk) am ak ∧
    memPattern (overlapExampleWord am ak bm bk) bm bk := by
  rw [patternsOverlap_eq_true_iff] at hov
  have hov' : ∀ i,
      (((am ^^^ bm) &&& ((ak &&& bk) &&& BIT_MASK_32)) &&& BIT_MASK_32).testBit i = false := by
    intro i; rw [hov]; exact Nat.zero_testBit i
  refine ⟨land_mask_lt _, ?_, ?_⟩
  · apply Nat.eq_of_testBit_eq
    intro i
    by_cases hi : i < 32
    · simp only [overlapExampleWord, Nat.testBit_and, Nat.testBit_or, testBit_compl32,
        testBit_bitmask, hi, decide_True, Bool.and_true, Bool.true_xor]
      generalize am.testBit i = a
      generalize ak.testBit i = p
      generalize bm.testBit i = b
      generalize bk.testBit i = q
      revert a p b q
      decide
    · simp [overlapExampleWord, Nat.testBit_and, testBit_high hak hi]
  · apply Nat.eq_of_testBit_eq
    intro i
    by_cases hi : i < 32
    · have h := hov' i
      simp only [Nat.testBit_and, Nat.testBit_xor, testBit_bitmask, hi, decide_True,
        Bool.and_true] at h
      simp only [overlapExampleWord, Nat.testBit_and, Nat.testBit_or, testBit_compl32,
        testBit_bitmask, hi, decide_True, Bool.and_true, Bool.true_xor]
      revert h
      generalize am.testBit i = a
      generalize ak.testBit i = p
      generalize bm.testBit i = b
      generalize bk.testBit i = q
      revert a p b q
      decide
    · simp [overlapExampleWord, Nat.testBit_and, testBit_high hbk hi]

/-- Claim C1: for 32-bit patterns `a` and `b` each satisfying
`match &&& compl32 mask = 0`, the single bitwise expression computed by
`patternsOverlap` returns `true` iff some 32-bit word lies in both
pattern sets `S(a)` and `S(b)`. -/
theorem patternsOverlap_iff_inter_nonempty (am ak bm bk : Nat)
    (ham : am < 2 ^ 32) (hak : ak < 2 ^ 32) (hbm : bm < 2 ^ 32) (hbk : bk < 2 ^ 32)
    (hinva : am &&& compl32 ak = 0) (hinvb : bm &&& compl32 bk = 0) :
    patternsOverlap am ak bm bk = true ↔
      ∃ w, w < 2 ^ 32 ∧ memPattern w am ak ∧ memPattern w bm bk := by
  constructor
  · intro hov
    obtain ⟨hlt, h1, h2⟩ := exampleWord_spec am ak bm bk hak hbk hov
    exact ⟨_, hlt, h1, h2⟩
  · rintro ⟨w, hw, h1, h2⟩
    by_contra hno
    rw [patternsOverlap_eq_true_iff] at hno
    obtain ⟨i, hbit⟩ := Nat.ne_zero_implies_bit_true hno
    have hia : (w &&& ak).testBit i = (am &&& ak).testBit i := by rw [h1]
    have hib : (w &&& bk).testBit i = (bm &&& bk).testBit i := by rw [h2]
    simp only [Nat.testBit_and, Nat.testBit_xor, testBit_bitmask] at hbit hia hib
    revert hbit hia hib
    generalize w.testBit i = x
    generalize am.testBit i = a
    generalize ak.testBit i = p
    generalize bm.testBit i = b
    generalize bk.testBit i = q
    generalize decide (i < 32) = d
    revert x a p b q d
    decide

/-- Witness for C1: patterns `(1, 1)` and `(0, 2)` overlap, so a common
word exists. -/
theorem patternsOverlap_iff_inter_nonempty_witness :
    ∃ w, w < 2 ^ 32 ∧ memPattern w 1 1 ∧ memPattern w 0 2 :=
  (patternsOverlap_iff_inter_nonempty 1 1 0 2 (by norm_num) (by norm_num) (by norm_num)
    (by norm_num) (by decide) (by decide)).mp (by decide)

/-- Claim C2: whenever two 32-bit patterns overlap, the word computed by
`overlapExampleWord` lies in both pattern sets. -/
theorem overlapExampleWord_mem_inter (am ak bm bk : Nat)
    (ham : am < 2 ^ 32) (hak : ak < 2 ^ 32) (hbm : bm < 2 ^ 32) (hbk : bk < 2 ^ 32)
    (hinva : am &&& compl32 ak = 0) (hinvb : bm &&& compl32 bk = 0)
    (hov : patternsOverlap am ak bm bk = true) :
    memPattern (overlapExampleWord am ak bm bk) am ak ∧
    memPattern (overlapExampleWord am ak bm bk) bm bk :=
  ⟨(exampleWord_spec am ak bm bk hak hbk hov).2.1,
   (exampleWord_spec am ak bm bk hak hbk hov).2.2⟩

/-- Witness for C2: the concrete witness word for patterns `(1, 3)` and
`(5, 5)` lies in both sets. -/
theorem overlapExampleWord_mem_inter_witness :
    memPattern (overlapExampleWord 1 3 5 5) 1 3 ∧
    memPattern (overlapExampleWord 1 3 5 5) 5 5 :=
  overlapExampleWord_mem_inter 1 3 5 5 (by norm_num) (by norm_num) (by norm_num)
    (by norm_num) (by decide) (by decide) (by decide)

/-! ### The subset test -/

theorem land_land_self (x y : Nat) : (x &&& y) &&& y = x &&& y := by
  apply Nat.eq_of_testBit_eq
  intro i
  simp [Nat.testBit_and, Bool.and_assoc]

theorem isSubsetPattern_eq (am ak bm bk : Nat)
    (ham : am < 2 ^ 32) (hak : ak < 2 ^ 32) (hbm : bm < 2 ^ 32) (hbk : bk < 2 ^ 32) :
    isSubsetPattern am ak bm bk =
      (decide (bk &&& compl32 ak = 0) && decide ((am ^^^ bm) &&& bk = 0)) := by
  by_cases h : bk &&& compl32 ak = 0 <;>
    simp [isSubsetPattern, land_mask_eq ham, land_mask_eq hak, land_mask_eq hbm,
      land_mask_eq hbk, h]

theorem subset_conditions_of_forall (am ak bm bk : Nat)
    (hak : ak < 2 ^ 32) (hbm : bm < 2 ^ 32) (hbk : bk < 2 ^ 32)
    (hall : ∀ w, w < 2 ^ 32 → memPattern w am ak → memPattern w bm bk) :
    bk &&& compl32 ak = 0 ∧ (am ^^^ bm) &&& bk = 0 := by
  have hmask : BIT_MASK_32 < 2 ^ 32 := by norm_num [BIT_MASK_32]
  have hc1 : bk &&& compl32 ak = 0 := by
    by_contra hne
    obtain ⟨i, hbit⟩ := Nat.ne_zero_implies_bit_true hne
    simp only [Nat.testBit_and, testBit_compl32] at hbit
    have hi : i < 32 := by
      by_contra hi
      rw [testBit_high hbk hi] at hbit
      simp at hbit
    simp only [hi, decide_True] at hbit
    have hbki : bk.testBit i = true := by
      revert hbit; cases h : bk.testBit i <;> simp
    have haki : ak.testBit i = false := by
      revert hbit; cases h : ak.testBit i <;> simp
    have hwlt : (am &&& ak) ^^^ ((1 <<< i) &&& compl32 bm) < 2 ^ 32 :=
      Nat.xor_lt_two_pow (Nat.and_lt_two_pow am hak)
        (Nat.and_lt_two_pow _ (Nat.xor_lt_two_pow hmask hbm))
    have hmem : memPattern ((am &&& ak) ^^^ ((1 <<< i) &&& compl32 bm)) am ak := by
      apply Nat.eq_of_testBit_eq
      intro j
      by_cases hji : j = i
      · subst hji
        simp [Nat.testBit_and, Nat.testBit_xor, one_shiftLeft_testBit, haki]
      · have hij : decide (i = j) = false := by
          simp only [decide_eq_false_iff_not]
          exact fun h => hji h.symm
        simp only [Nat.testBit_and, Nat.testBit_xor, one_shiftLeft_testBit, hij,
          Bool.false_and, Bool.xor_false]
        cases h1 : am.testBit j <;> cases h2 : ak.testBit j <;> simp
    have hb := hall _ hwlt hmem
    have hbi := congrArg (fun x => x.testBit i) hb
    simp only [Nat.testBit_and, Nat.testBit_xor, one_shiftLeft_testBit, testBit_compl32,
      haki, hbki, hi, decide_True, Bool.and_true, Bool.and_false, Bool.true_xor,
      Bool.false_xor] at hbi
    revert hbi
    cases h : bm.testBit i <;> simp
  refine ⟨hc1, ?_⟩
  have hmem0 : memPattern (am &&& ak) am ak := land_land_self am ak
  have hb := hall (am &&& ak) (Nat.and_lt_two_pow am hak) hmem0
  apply Nat.eq_of_testBit_eq
  intro i
  by_cases hi : i < 32
  · have h1 : (bk &&& compl32 ak).testBit i = false := by
      rw [hc1]; exact Nat.zero_testBit i
    have hbi := congrArg (fun x => x.testBit i) hb
    simp only [Nat.testBit_and, Nat.testBit_xor, testBit_compl32, hi, decide_True,
      Bool.true_xor, Nat.zero_testBit] at h1 hbi ⊢
    revert h1 hbi
    generalize am.testBit i = a
    generalize ak.testBit i = p
    generalize bm.testBit i = b
    generalize bk.testBit i = q
    revert a p b q
    decide
  · simp [Nat.testBit_and, testBit_high hbk hi]

/-- Claim C3: for 32-bit patterns satisfying the invariant,
`isSubsetPattern a b` decides exactly `S(a) ⊆ S(b)`, and its decision is
exactly the conjunction of the two bitwise conditions
`bk &&& compl32 ak = 0` and `(am ^^^ bm) &&& bk = 0`. -/
theorem isSubsetPattern_iff_subset (am ak bm bk : Nat)
    (ham : am < 2 ^ 32) (hak : ak < 2 ^ 32) (hbm : bm < 2 ^ 32) (hbk : bk < 2 ^ 32)
    (hinva : am &&& compl32 ak = 0) (hinvb : bm &&& compl32 bk = 0) :
    (isSubsetPattern am ak bm bk = true ↔
      ∀ w, w < 2 ^ 32 → memPattern w am ak → memPattern w bm bk) ∧
    isSubsetPattern am ak bm bk =
      (decide (bk &&& compl32 ak = 0) && decide ((am ^^^ bm) &&& bk = 0)) := by
  refine ⟨?_, isSubsetPattern_eq am ak bm bk ham hak hbm hbk⟩
  rw [isSubsetPattern_eq am ak bm bk ham hak hbm hbk]
  constructor
  · intro h w hw hmem
    simp only [Bool.and_eq_true, decide_eq_true_eq] at h
    obtain ⟨hc1, hc2⟩ := h
    apply Nat.eq_of_testBit_eq
    intro i
    by_cases hi : i < 32
    · have h1 : (bk &&& compl32 ak).testBit i = false := by
        rw [hc1]; exact Nat.zero_testBit i
      have h2 : ((am ^^^ bm) &&& bk).testBit i = false := by
        rw [hc2]; exact Nat.zero_testBit i
      have hm := congrArg (fun x => x.testBit i) hmem
      simp only [Nat.testBit_and, Nat.testBit_xor, testBit_compl32, hi, decide_True,
        Bool.true_xor] at h1 h2 hm ⊢
      revert h1 h2 hm
      generalize w.testBit i = x
      generalize am.testBit i = a
      generalize ak.testBit i = p
      generalize bm.testBit i = b
      generalize bk.testBit i = q
      revert x a p b q
      decide
    · simp [Nat.testBit_and, testBit_high hbk hi]
  · intro hall
    obtain ⟨hc1, hc2⟩ := subset_conditions_of_forall am ak bm bk hak hbm hbk hall
    simp [hc1, hc2]

/-- Witness for C3: pattern `(3, 3)` is a subset of pattern `(1, 1)`. -/
theorem isSubsetPattern_iff_subset_witness :
    (isSubsetPattern 3 3 1 1 = true ↔
      ∀ w, w < 2 ^ 32 → memPattern w 3 3 → memPattern w 1 1) ∧
    isSubsetPattern 3 3 1 1 =
      (decide (1 &&& compl32 3 = 0) && decide ((3 ^^^ 1) &&& 1 = 0)) :=
  isSubsetPattern_iff_subset 3 3 1 1 (by norm_num) (by norm_num) (by norm_num)
    (by norm_num) (by decide) (by decide)

/-! ### The classification decision -/

/-- Claim C4: the classification picks exactly one kind with the source's
decision order; in particular, when `isSubsetPattern` holds in both
directions for an overlapping pair of 32-bit patterns, the two patterns
are equal fieldwise and the pair is classified `identical` (the first
branch of `classifyConflict`). -/
theorem mutual_subset_classified_identical (am ak bm bk : Nat)
    (ham : am < 2 ^ 32) (hak : ak < 2 ^ 32) (hbm : bm < 2 ^ 32) (hbk : bk < 2 ^ 32)
    (hinva : am &&& compl32 ak = 0) (hinvb : bm &&& compl32 bk = 0)
    (hov : patternsOverlap am ak bm bk = true)
    (h1 : isSubsetPattern am ak bm bk = true)
    (h2 : isSubsetPattern bm bk am ak = true) :
    am = bm ∧ ak = bk ∧ classifyConflict am ak bm bk = ConflictKind.identical := by
  rw [isSubsetPattern_eq am ak bm bk ham hak hbm hbk] at h1
  rw [isSubsetPattern_eq bm bk am ak hbm hbk ham hak] at h2
  simp only [Bool.and_eq_true, decide_eq_true_eq] at h1 h2
  obtain ⟨hc1a, hc2a⟩ := h1
  obtain ⟨hc1b, hc2b⟩ := h2
  have hkk : ak = bk := by
    apply Nat.eq_of_testBit_eq
    intro i
    by_cases hi : i < 32
    · have u := congrArg (fun x => x.testBit i) hc1a
      have v := congrArg (fun x => x.testBit i) hc1b
      simp only [Nat.testBit_and, testBit_compl32, hi, decide_True, Bool.true_xor,
        Nat.zero_testBit] at u v
      revert u v
      cases ak.testBit i <;> cases bk.testBit i <;> simp
    · rw [testBit_high hak hi, testBit_high hbk hi]
  have hmm : am = bm := by
    apply Nat.eq_of_testBit_eq
    intro i
    by_cases hi : i < 32
    · have u := congrArg (fun x => x.testBit i) hinva
      have v := congrArg (fun x => x.testBit i) hinvb
      have hw := congrArg (fun x => x.testBit i) hc2a
      simp only [Nat.testBit_and, Nat.testBit_xor, testBit_compl32, hi, decide_True,
        Bool.true_xor, Nat.zero_testBit] at u v hw
      rw [hkk] at u
      revert u v hw
      generalize am.testBit i = a
      generalize bm.testBit i = b
      generalize bk.testBit i = q
      revert a b q
      decide
    · rw [testBit_high ham hi, testBit_high hbm hi]
  exact ⟨hmm, hkk, by simp [classifyConflict, hmm, hkk]⟩

/-- Witness for C4: the pair `(5, 7)` against itself is classified
`identical`. -/
theorem mutual_subset_classified_identical_witness :
    (5 : Nat) = 5 ∧ (7 : Nat) = 7 ∧ classifyConflict 5 7 5 7 = ConflictKind.identical :=
  mutual_subset_classified_identical 5 7 5 7 (by norm_num) (by norm_num) (by norm_num)
    (by norm_num) (by decide) (by decide) (by decide) (by decide) (by decide)

/-! ### Token round-trip machinery -/

theorem land_one_shiftLeft_eq_zero_iff (k n : Nat) :
    k &&& (1 <<< n) = 0 ↔ k.testBit n = false := by
  constructor
  · intro h
    have h' := congrArg (fun x => x.testBit n) h
    simpa [Nat.testBit_and, one_shiftLeft_testBit] using h'
  · intro h
    apply Nat.eq_of_testBit_eq
    intro b
    by_cases hb : n = b
    · subst hb
      simp only [Nat.testBit_and, one_shiftLeft_testBit, Nat.zero_testBit, h]
      simp
    · simp only [Nat.testBit_and, one_shiftLeft_testBit, Nat.zero_testBit]
      simp [hb]

theorem encCharOf_eq (m k n : Nat) :
    encCharOf m k n =
      if k.testBit n = false then '-' else if m.testBit n = false then '0' else '1' := by
  rw [encCharOf]
  by_cases hk : k.testBit n = false
  · rw [if_pos ((land_one_shiftLeft_eq_zero_iff k n).mpr hk), if_pos hk]
  · rw [if_neg (fun h => hk ((land_one_shiftLeft_eq_zero_iff k n).mp h)), if_neg hk]
    by_cases hm : m.testBit n = false
    · rw [if_pos ((land_one_shiftLeft_eq_zero_iff m n).mpr hm), if_pos hm]
    · rw [if_neg (fun h => hm ((land_one_shiftLeft_eq_zero_iff m n).mp h)), if_neg hm]

theorem mod_two_pow_succ_of_testBit_false {x n : Nat} (h : x.testBit n = false) :
    x % 2 ^ (n + 1) = x % 2 ^ n := by
  apply Nat.eq_of_testBit_eq
  intro b
  simp only [Nat.testBit_mod_two_pow]
  by_cases hb : b < n
  · simp [hb, Nat.lt_succ_of_lt hb]
  · by_cases hb2 : b = n
    · subst hb2; simp [h, hb]
    · have h1 : ¬ b < n + 1 := by omega
      simp [hb, h1]

theorem or_shift_or_mod_two_pow (mk k n : Nat) (h : k.testBit n = true) :
    (mk ||| (1 <<< n)) ||| k % 2 ^ n = mk ||| k % 2 ^ (n + 1) := by
  apply Nat.eq_of_testBit_eq
  intro b
  simp only [Nat.testBit_or, one_shiftLeft_testBit, Nat.testBit_mod_two_pow]
  by_cases hb : n = b
  · subst hb
    simp [h, Nat.lt_succ_self]
  · have h1 : decide (b < n + 1) = decide (b < n) := by
      by_cases hb2 : b < n
      · simp [hb2, Nat.lt_succ_of_lt hb2]
      · have : ¬ b < n + 1 := by omega
        simp [hb2, this]
    rw [h1]
    simp [hb, Bool.or_assoc]

theorem encLoop_testBit_high (cs : List Char) :
    ∀ (j mt mk b : Nat), j + cs.length ≤ 32 → 32 ≤ j + b →
      (encLoop cs j (mt, mk)).1.testBit b = mt.testBit b ∧
      (encLoop cs j (mt, mk)).2.testBit b = mk.testBit b := by
  induction cs with
  | nil => intro j mt mk b _ _; exact ⟨rfl, rfl⟩
  | cons c cs ih =>
    intro j mt mk b hlen hb
    have hj : j ≤ 31 := by simp only [List.length_cons] at hlen; omega
    have hne : (31 - j) ≠ b := by omega
    have hlen' : (j + 1) + cs.length ≤ 32 := by simp only [List.length_cons] at hlen; omega
    have hb' : 32 ≤ (j + 1) + b := by omega
    simp only [encLoop]
    by_cases hc : c = '-'
    · rw [if_pos hc]; exact ih (j + 1) mt mk b hlen' hb'
    · rw [if_neg hc]
      obtain ⟨ih1, ih2⟩ :=
        ih (j + 1) (if c = '1' then mt ||| (1 <<< (31 - j)) else mt)
          (mk ||| (1 <<< (31 - j))) b hlen' hb'
      refine ⟨?_, ?_⟩
      · rw [ih1]
        by_cases h1 : c = '1'
        · rw [if_pos h1]
          simp only [Nat.testBit_or, one_shiftLeft_testBit]
          simp [hne]
        · rw [if_neg h1]
      · rw [ih2]
        simp only [Nat.testBit_or, one_shiftLeft_testBit]
        simp [hne]

theorem encLoop_match_sub_mask (cs : List Char) :
    ∀ (j mt mk : Nat), (∀ b, mt.testBit b = true → mk.testBit b = true) →
      ∀ b, (encLoop cs j (mt, mk)).1.testBit b = true →
        (encLoop cs j (mt, mk)).2.testBit b = true := by
  induction cs with
  | nil => intro j mt mk h b; exact h b
  | cons c cs ih =>
    intro j mt mk h b
    simp only [encLoop]
    by_cases hc : c = '-'
    · rw [if_pos hc]; exact ih (j + 1) mt mk h b
    · rw [if_neg hc]
      apply ih (j + 1)
      intro b' hb'
      simp only [Nat.testBit_or, Bool.or_eq_true]
      by_cases h1 : c = '1'
      · rw [if_pos h1] at hb'
        simp only [Nat.testBit_or, Bool.or_eq_true] at hb'
        rcases hb' with h2 | h2
        · exact Or.inl (h b' h2)
        · exact Or.inr h2
      · rw [if_neg h1] at hb'
        exact Or.inl (h b' hb')

theorem encLoop_lt_two_pow (cs : List Char) :
    ∀ (j mt mk : Nat), mt < 2 ^ 32 → mk < 2 ^ 32 →
      (encLoop cs j (mt, mk)).1 < 2 ^ 32 ∧ (encLoop cs j (mt, mk)).2 < 2 ^ 32 := by
  induction cs with
  | nil => intro j mt mk h1 h2; exact ⟨h1, h2⟩
  | cons c cs ih =>
    intro j mt mk h1 h2
    have hsh : (1 : Nat) <<< (31 - j) < 2 ^ 32 := by
      rw [Nat.shiftLeft_eq, one_mul]
      exact Nat.pow_lt_pow_right (by norm_num) (by omega)
    simp only [encLoop]
    by_cases hc : c = '-'
    · rw [if_pos hc]; exact ih (j + 1) mt mk h1 h2
    · rw [if_neg hc]
      apply ih (j + 1)
      · by_cases hone : c = '1'
        · rw [if_pos hone]; exact Nat.or_lt_two_pow h1 hsh
        · rw [if_neg hone]; exact h1
      · exact Nat.or_lt_two_pow h2 hsh

theorem mmLoop_length (m k : Nat) : ∀ n, (mmLoop m k n).length = n := by
  intro n
  induction n with
  | zero => rfl
  | succ n ih => simp [mmLoop, ih]

theorem mmLoop_all_encChar (m k : Nat) : ∀ n, (mmLoop m k n).all isEncChar = true := by
  intro n
  induction n with
  | zero => rfl
  | succ n ih =>
    simp only [mmLoop, List.all_cons, ih, Bool.and_true]
    rw [encCharOf_eq]
    by_cases hk : k.testBit n = false
    · simp [hk, isEncChar]
    · by_cases hm : m.testBit n = false <;> simp [hk, hm, isEncChar]

theorem isEncChar_not_whitespace (c : Char) (h : isEncChar c = true) :
    c.isWhitespace = false := by
  simp only [isEncChar, Bool.or_eq_true, decide_eq_true_eq] at h
  rcases h with (h | h) | h <;> subst h <;> decide

theorem normalize_eq_self_of_encChars (cs : List Char) (h : cs.all isEncChar = true) :
    normalizeEncodingString cs = cs := by
  rw [normalizeEncodingString, List.filter_eq_self]
  intro a ha
  simp only [List.all_eq_true] at h
  rw [isEncChar_not_whitespace a (h a ha)]
  rfl

theorem land_eq_self_of_inv {m k : Nat} (hm : m < 2 ^ 32) (hinv : m &&& compl32 k = 0) :
    m &&& k = m := by
  apply Nat.eq_of_testBit_eq
  intro i
  by_cases hi : i < 32
  · have u := congrArg (fun x => x.testBit i) hinv
    simp only [Nat.testBit_and, testBit_compl32, hi, decide_True, Bool.true_xor,
      Nat.zero_testBit] at u ⊢
    revert u
    cases m.testBit i <;> cases k.testBit i <;> simp
  · simp [Nat.testBit_and, testBit_high hm hi]

theorem encLoop_cons_dash (cs : List Char) (i mt mk : Nat) :
    encLoop ('-' :: cs) i (mt, mk) = encLoop cs (i + 1) (mt, mk) := by
  simp [encLoop]

theorem encLoop_cons_zero (cs : List Char) (i mt mk : Nat) :
    encLoop ('0' :: cs) i (mt, mk) = encLoop cs (i + 1) (mt, mk ||| 1 <<< (31 - i)) := by
  simp [encLoop]

theorem encLoop_cons_one (cs : List Char) (i mt mk : Nat) :
    encLoop ('1' :: cs) i (mt, mk) =
      encLoop cs (i + 1) (mt ||| 1 <<< (31 - i), mk ||| 1 <<< (31 - i)) := by
  simp [encLoop]

theorem mmLoop_encLoop_roundTrip (cs : List Char) :
    ∀ (j mt mk : Nat), j + cs.length = 32 → cs.all isEncChar = true →
      (∀ b, b < 32 - j → mt.testBit b = false) →
      (∀ b, b < 32 - j → mk.testBit b = false) →
      mmLoop (encLoop cs j (mt, mk)).1 (encLoop cs j (mt, mk)).2 (32 - j) = cs := by
  induction cs with
  | nil =>
    intro j mt mk hlen _ _ _
    have h0 : 32 - j = 0 := by simp only [List.length_nil] at hlen; omega
    rw [h0]
    rfl
  | cons c cs ih =>
    intro j mt mk hlen halpha hmt hmk
    have hj : j ≤ 31 := by simp only [List.length_cons] at hlen; omega
    have hlen' : (j + 1) + cs.length = 32 := by simp only [List.length_cons] at hlen; omega
    have hl : 32 - j = (31 - j) + 1 := by omega
    have hl2 : 32 - (j + 1) = 31 - j := by omega
    simp only [List.all_cons, Bool.and_eq_true] at halpha
    obtain ⟨hcalpha, hrest⟩ := halpha
    simp only [isEncChar, Bool.or_eq_true, decide_eq_true_eq] at hcalpha
    rcases hcalpha with (h0 | h1) | hdash
    · subst h0
      rw [encLoop_cons_zero, hl]
      simp only [mmLoop]
      obtain ⟨e1, e2⟩ :=
        encLoop_testBit_high cs (j + 1) mt (mk ||| 1 <<< (31 - j)) (31 - j)
          (by omega) (by omega)
      congr 1
      · rw [encCharOf_eq]
        have hKbit :
            (encLoop cs (j + 1) (mt, mk ||| 1 <<< (31 - j))).2.testBit (31 - j) = true := by
          rw [e2]
          simp only [Nat.testBit_or, one_shiftLeft_testBit]
          simp
        have hMbit :
            (encLoop cs (j + 1) (mt, mk ||| 1 <<< (31 - j))).1.testBit (31 - j) = false := by
          rw [e1]
          exact hmt (31 - j) (by omega)
        rw [hKbit, hMbit]
        simp
      · have htail := ih (j + 1) mt (mk ||| 1 <<< (31 - j)) hlen' hrest
          (fun b hb => hmt b (by omega))
          (by
            intro b hb
            rw [hl2] at hb
            simp only [Nat.testBit_or, one_shiftLeft_testBit]
            rw [hmk b (by omega)]
            simp [show (31 - j) ≠ b by omega])
        rw [hl2] at htail
        exact htail
    · subst h1
      rw [encLoop_cons_one, hl]
      simp only [mmLoop]
      obtain ⟨e1, e2⟩ :=
        encLoop_testBit_high cs (j + 1) (mt ||| 1 <<< (31 - j)) (mk ||| 1 <<< (31 - j))
          (31 - j) (by omega) (by omega)
      congr 1
      · rw [encCharOf_eq]
        have hKbit :
            (encLoop cs (j + 1)
              (mt ||| 1 <<< (31 - j), mk ||| 1 <<< (31 - j))).2.testBit (31 - j) = true := by
          rw [e2]
          simp only [Nat.testBit_or, one_shiftLeft_testBit]
          simp
        have hMbit :
            (encLoop cs (j + 1)
              (mt ||| 1 <<< (31 - j), mk ||| 1 <<< (31 - j))).1.testBit (31 - j) = true := by
          rw [e1]
          simp only [Nat.testBit_or, one_shiftLeft_testBit]
          simp
        rw [hKbit, hMbit]
        simp
      · have htail := ih (j + 1) (mt ||| 1 <<< (31 - j)) (mk ||| 1 <<< (31 - j)) hlen' hrest
          (by
            intro b hb
            rw [hl2] at hb
            simp only [Nat.testBit_or, one_shiftLeft_testBit]
            rw [hmt b (by omega)]
            simp [show (31 - j) ≠ b by omega])
          (by
            intro b hb
            rw [hl2] at hb
            simp only [Nat.testBit_or, one_shiftLeft_testBit]
            rw [hmk b (by omega)]
            simp [show (31 - j) ≠ b by omega])
        rw [hl2] at htail
        exact htail
    · subst hdash
      rw [encLoop_cons_dash, hl]
      simp only [mmLoop]
      obtain ⟨e1, e2⟩ :=
        encLoop_testBit_high cs (j + 1) mt mk (31 - j) (by omega) (by omega)
      congr 1
      · rw [encCharOf_eq]
        have hKbit : (encLoop cs (j + 1) (mt, mk)).2.testBit (31 - j) = false := by
          rw [e2]
          exact hmk (31 - j) (by omega)
        rw [hKbit]
        simp
      · have htail := ih (j + 1) mt mk hlen' hrest
          (fun b hb => hmt b (by omega)) (fun b hb => hmk b (by omega))
        rw [hl2] at htail
        exact htail

/-- Claim C6: every 32-character token over the three encoding
characters parses successfully,
and re-emitting the parsed `(match, mask)` pair reproduces the token
exactly (leftmost character = bit 31). -/
theorem token_round_trip (cs : List Char) (hlen : cs.length = 32)
    (halpha : cs.all isEncChar = true) :
    ∃ p : Nat × Nat, encodingToMatchMask cs = .ok p ∧ matchMaskToEncoding p.1 p.2 = cs := by
  have hnorm : normalizeEncodingString cs = cs := normalize_eq_self_of_encChars cs halpha
  have hne : cs.isEmpty = false := by
    cases cs with
    | nil => simp at hlen
    | cons a l => rfl
  have henc : encodingToMatchMask cs = .ok (encLoop cs 0 (0, 0)) := by
    simp [encodingToMatchMask, hnorm, hne, hlen, halpha]
  refine ⟨encLoop cs 0 (0, 0), henc, ?_⟩
  obtain ⟨hb1, hb2⟩ := encLoop_lt_two_pow cs 0 0 0 (by norm_num) (by norm_num)
  rw [matchMaskToEncoding, land_mask_eq hb1, land_mask_eq hb2]
  have h := mmLoop_encLoop_roundTrip cs 0 0 0 (by omega) halpha
    (fun b _ => Nat.zero_testBit b) (fun b _ => Nat.zero_testBit b)
  simpa using h

/-- Witness for C6: the round-trip on the Zba `SH1ADD` token. -/
theorem token_round_trip_witness :
    ∃ p : Nat × Nat,
      encodingToMatchMask
          ['0', '0', '1', '0', '0', '0', '0', '-', '-', '-', '-', '-', '-', '-', '-', '-',
           '-', '0', '1', '0', '-', '-', '-', '-', '-', '0', '1', '1', '0', '0', '1', '1']
        = .ok p ∧
      matchMaskToEncoding p.1 p.2 =
        ['0', '0', '1', '0', '0', '0', '0', '-', '-', '-', '-', '-', '-', '-', '-', '-',
         '-', '0', '1', '0', '-', '-', '-', '-', '-', '0', '1', '1', '0', '0', '1', '1'] :=
  token_round_trip _ (by decide) (by decide)

theorem encLoop_mmLoop (m k : Nat) :
    ∀ n, n ≤ 32 → ∀ (mt mk : Nat),
      encLoop (mmLoop m k n) (32 - n) (mt, mk) =
        (mt ||| ((m &&& k) % 2 ^ n), mk ||| (k % 2 ^ n)) := by
  intro n
  induction n with
  | zero =>
    intro _ mt mk
    simp [mmLoop, encLoop, Nat.mod_one]
  | succ n ih =>
    intro hn mt mk
    have h1 : 32 - (n + 1) + 1 = 32 - n := by omega
    have hj : 31 - (32 - (n + 1)) = n := by omega
    simp only [mmLoop]
    rw [encCharOf_eq]
    by_cases hk : k.testBit n = false
    · rw [if_pos hk]
      rw [encLoop_cons_dash, h1, ih (by omega) mt mk]
      have hmk : (m &&& k).testBit n = false := by
        simp [Nat.testBit_and, hk]
      rw [mod_two_pow_succ_of_testBit_false hmk, mod_two_pow_succ_of_testBit_false hk]
    · have hk' : k.testBit n = true := by revert hk; cases k.testBit n <;> simp
      rw [if_neg hk]
      by_cases hm : m.testBit n = false
      · rw [if_pos hm]
        rw [encLoop_cons_zero, h1, hj, ih (by omega) mt (mk ||| 1 <<< n)]
        have hmandk : (m &&& k).testBit n = false := by
          simp [Nat.testBit_and, hm]
        rw [mod_two_pow_succ_of_testBit_false hmandk,
          or_shift_or_mod_two_pow mk k n hk']
      · have hm' : m.testBit n = true := by revert hm; cases m.testBit n <;> simp
        rw [if_neg hm]
        rw [encLoop_cons_one, h1, hj, ih (by omega) (mt ||| 1 <<< n) (mk ||| 1 <<< n)]
        have hmandk : (m &&& k).testBit n = true := by
          simp [Nat.testBit_and, hm', hk']
        rw [or_shift_or_mod_two_pow mt (m &&& k) n hmandk,
          or_shift_or_mod_two_pow mk k n hk']

/-- Claim C10: for every 32-bit `(match, mask)` pair satisfying the
invariant, the emitted 32-character token is valid and parses back to
exactly the same pair. -/
theorem matchMask_round_trip (m k : Nat) (hm : m < 2 ^ 32) (hk : k < 2 ^ 32)
    (hinv : m &&& compl32 k = 0) :
    encodingToMatchMask (matchMaskToEncoding m k) = .ok (m, k) := by
  rw [matchMaskToEncoding, land_mask_eq hm, land_mask_eq hk]
  have hall := mmLoop_all_encChar m k 32
  have hnorm := normalize_eq_self_of_encChars _ hall
  have hlen := mmLoop_length m k 32
  have hne : (mmLoop m k 32).isEmpty = false := by
    cases hc : mmLoop m k 32 with
    | nil => rw [hc] at hlen; simp at hlen
    | cons a l => rfl
  have henc : encodingToMatchMask (mmLoop m k 32) =
      .ok (encLoop (mmLoop m k 32) 0 (0, 0)) := by
    simp [encodingToMatchMask, hnorm, hne, hlen, hall]
  rw [henc]
  have h := encLoop_mmLoop m k 32 (by norm_num) 0 0
  simp only [show 32 - 32 = 0 from rfl] at h
  rw [h, Nat.zero_or, Nat.zero_or, Nat.mod_eq_of_lt (Nat.and_lt_two_pow m hk),
    Nat.mod_eq_of_lt hk, land_eq_self_of_inv hm hinv]

/-- Witness for C10: the `SH1ADD` pair `(0x20002033, 0xfe00707f)`
reverse round-trips. -/
theorem matchMask_round_trip_witness :
    encodingToMatchMask (matchMaskToEncoding 0x20002033 0xfe00707f)
      = .ok (0x20002033, 0xfe00707f) :=
  matchMask_round_trip 0x20002033 0xfe00707f (by norm_num) (by norm_num) (by decide)

/-! ### The normalization invariant in the validator -/

/-- Claim C5 (amended): every `(match, mask)` pair derived from a valid
32-character token satisfies `match &&& compl32 mask = 0`, and a supplied
pair violating the invariant is reported as an `illegalMatch` error —
although the validator still adopts the violating pair as the proposed
pattern (see the counterexample). -/
theorem normalization_invariant_enforced :
    (∀ cs : List Char, (normalizeEncodingString cs).length = 32 →
        (normalizeEncodingString cs).all isEncChar = true →
        ∃ m k, encodingToMatchMask cs = .ok (m, k) ∧
          m &&& compl32 k = 0 ∧ m < 2 ^ 32 ∧ k < 2 ^ 32) ∧
    (∀ (catalog : List CatalogEntry) (mp kp : Nat),
        (mp &&& BIT_MASK_32) &&& compl32 (kp &&& BIT_MASK_32) ≠ 0 →
        VError.illegalMatch ∈
          (runEncoderValidation catalog
            ⟨[], HexField.value mp, HexField.value kp⟩).errors) := by
  constructor
  · intro cs hlen halpha
    have hne : (normalizeEncodingString cs).isEmpty = false := by
      cases hc : normalizeEncodingString cs with
      | nil => rw [hc] at hlen; simp at hlen
      | cons a l => rfl
    have hsub := encLoop_match_sub_mask (normalizeEncodingString cs) 0 0 0
      (fun b hb => absurd hb (by simp))
    obtain ⟨hm, hk⟩ :=
      encLoop_lt_two_pow (normalizeEncodingString cs) 0 0 0 (by norm_num) (by norm_num)
    refine ⟨(encLoop (normalizeEncodingString cs) 0 (0, 0)).1,
      (encLoop (normalizeEncodingString cs) 0 (0, 0)).2, ?_, ?_, hm, hk⟩
    · simp [encodingToMatchMask, hne, hlen, halpha]
    · apply Nat.eq_of_testBit_eq
      intro i
      by_cases hi : i < 32
      · simp only [Nat.testBit_and, testBit_compl32, hi, decide_True, Bool.true_xor,
          Nat.zero_testBit]
        cases hmb : (encLoop (normalizeEncodingString cs) 0 (0, 0)).1.testBit i with
        | false => simp
        | true => rw [hsub i hmb]; simp
      · simp only [Nat.testBit_and, Nat.zero_testBit, testBit_high hm hi, Bool.false_and]
  · intro catalog mp kp h
    simp [runEncoderValidation, normalizePhase, finalizeValidation, hexFieldPresent,
      parseHexField, normalizeEncodingString, h]

/-- Counterexample for C5 as stated: on supplied `match = 0x3`,
`mask = 0x1` (no encoding), the validator reports the `illegalMatch`
error but still accepts the invariant-violating pair as the proposed
pattern and derives conflicts from it. -/
theorem normalization_invariant_counterexample :
    3 &&& compl32 1 ≠ 0 ∧
    (runEncoderValidation [⟨['a'], 3, 1⟩]
        ⟨[], HexField.value 3, HexField.value 1⟩).errors = [VError.illegalMatch] ∧
    (runEncoderValidation [⟨['a'], 3, 1⟩]
        ⟨[], HexField.value 3, HexField.value 1⟩).proposed = some ⟨3, 1⟩ ∧
    (runEncoderValidation [⟨['a'], 3, 1⟩]
        ⟨[], HexField.value 3, HexField.value 1⟩).conflicts ≠ [] := by
  refine ⟨by decide, by decide, by decide, ?_⟩
  have h1 : (runEncoderValidation [⟨['a'], 3, 1⟩]
      ⟨[], HexField.value 3, HexField.value 1⟩).conflicts
      = sortConflicts (computeConflicts 3 1 [⟨['a'], 3, 1⟩]) := rfl
  have h2 : computeConflicts 3 1 [⟨['a'], 3, 1⟩]
      = [⟨⟨['a'], 3, 1⟩, ConflictKind.identical, 1, 1⟩] := by decide
  rw [h1, h2, sortConflicts]
  simp

/-- Witness for C5: the all-dashes token yields an invariant-satisfying
pair, and the supplied pair `(0x3, 0x1)` triggers the error. -/
theorem normalization_invariant_enforced_witness :
    (∃ m k, encodingToMatchMask (List.replicate 32 '-') = .ok (m, k) ∧
      m &&& compl32 k = 0 ∧ m < 2 ^ 32 ∧ k < 2 ^ 32) ∧
    VError.illegalMatch ∈
      (runEncoderValidation [] ⟨[], HexField.value 3, HexField.value 1⟩).errors :=
  ⟨normalization_invariant_enforced.1 (List.replicate 32 '-') (by decide) (by decide),
   normalization_invariant_enforced.2 [] 3 1 (by decide)⟩

/-! ### Token error reporting -/

/-- Counterexample for C9 as stated: the empty token has length 0 after
whitespace removal, which is not 32, yet the source reports the
missing-input error rather than a length error. -/
theorem token_errors_counterexample :
    (normalizeEncodingString []).length ≠ 32 ∧
    encodingToMatchMask [] = .error EncError.provideEncoding ∧
    encodingToMatchMask [] ≠
      .error (EncError.lengthError (normalizeEncodingString []).length 32) := by
  refine ⟨by decide, rfl, ?_⟩
  intro h
  exact absurd (Except.error.inj h) (by decide)

/-- Claim C9 (amended): every token that is nonempty after whitespace
removal and not 32 characters long yields the length error carrying the
received length and expected 32; a 32-character token with a character
outside the alphabet yields the alphabet error; an empty token yields
the missing-input error; in every case no pair is produced. -/
theorem token_errors (cs : List Char) :
    ((normalizeEncodingString cs).length ≠ 32 → normalizeEncodingString cs ≠ [] →
      encodingToMatchMask cs =
        .error (EncError.lengthError (normalizeEncodingString cs).length 32)) ∧
    ((normalizeEncodingString cs).length = 32 →
      (normalizeEncodingString cs).all isEncChar = false →
      encodingToMatchMask cs = .error EncError.alphabetError) ∧
    (normalizeEncodingString cs = [] →
      encodingToMatchMask cs = .error EncError.provideEncoding) := by
  refine ⟨?_, ?_, ?_⟩
  · intro hlen hne
    have hne' : (normalizeEncodingString cs).isEmpty = false := by
      cases hc : normalizeEncodingString cs with
      | nil => exact absurd hc hne
      | cons a l => rfl
    simp [encodingToMatchMask, hne', hlen]
  · intro hlen halpha
    have hne' : (normalizeEncodingString cs).isEmpty = false := by
      cases hc : normalizeEncodingString cs with
      | nil => rw [hc] at hlen; simp at hlen
      | cons a l => rfl
    simp [encodingToMatchMask, hne', hlen, halpha]
  · intro h
    simp [encodingToMatchMask, h]

/-- Witness for C9: a 31-character token yields `lengthError 31 32`, and
a 32-character token of `x` characters yields the alphabet error. -/
theorem token_errors_witness :
    encodingToMatchMask (List.replicate 31 '0')
      = .error (EncError.lengthError 31 32) ∧
    encodingToMatchMask (List.replicate 32 'x') = .error EncError.alphabetError := by
  constructor
  · have hl : (normalizeEncodingString (List.replicate 31 '0')).length = 31 := by decide
    have h := (token_errors (List.replicate 31 '0')).1 (by decide) (by decide)
    rw [hl] at h
    exact h
  · exact (token_errors (List.replicate 32 'x')).2.1 (by decide) (by decide)

/-! ### Error propagation in the validator -/

/-- Claim C8 (amended): when normalization determines no proposed
pattern, no conflicts are produced; but when an encoding and a
disagreeing match/mask pair are both supplied, the consistency error is
reported and conflicts are nevertheless computed from the
encoding-derived pattern (the encoding source is preferred). -/
theorem error_propagation (catalog : List CatalogEntry) :
    (∀ input : ValidatorInput,
      (runEncoderValidation catalog input).proposed = none →
      (runEncoderValidation catalog input).conflicts = []) ∧
    (∀ (cs : List Char) (mp kp dm dk : Nat),
      encodingToMatchMask (normalizeEncodingString cs) = .ok (dm, dk) →
      (dm &&& BIT_MASK_32 ≠ mp &&& BIT_MASK_32 ∨
        dk &&& BIT_MASK_32 ≠ kp &&& BIT_MASK_32) →
      VError.consistency ∈
        (runEncoderValidation catalog
          ⟨cs, HexField.value mp, HexField.value kp⟩).errors ∧
      (runEncoderValidation catalog
          ⟨cs, HexField.value mp, HexField.value kp⟩).proposed
        = some ⟨dm &&& BIT_MASK_32, dk &&& BIT_MASK_32⟩ ∧
      (runEncoderValidation catalog
          ⟨cs, HexField.value mp, HexField.value kp⟩).conflicts
        = sortConflicts
            (computeConflicts (dm &&& BIT_MASK_32) (dk &&& BIT_MASK_32) catalog)) := by
  constructor
  · intro input h
    simp only [runEncoderValidation] at h ⊢
    cases hmm : (normalizePhase input).2 with
    | none => rfl
    | some q =>
      rw [hmm] at h
      obtain ⟨pm, pk⟩ := q
      simp [finalizeValidation] at h
  · intro cs mp kp dm dk hder hdiff
    have hne : (normalizeEncodingString cs).isEmpty = false := by
      cases hc : normalizeEncodingString cs with
      | nil =>
        rw [hc] at hder
        simp [encodingToMatchMask, normalizeEncodingString] at hder
      | cons a l => rfl
    by_cases hill : (mp &&& BIT_MASK_32) &&& compl32 (kp &&& BIT_MASK_32) ≠ 0 <;>
      refine ⟨?_, ?_, ?_⟩ <;>
        simp [runEncoderValidation, normalizePhase, finalizeValidation, hexFieldPresent,
          parseHexField, hne, hder, hdiff, hill]

/-- Counterexample for C8 as stated: with the all-zeros token and a
disagreeing supplied match, the consistency error is reported yet the
conflict list is nonempty (computed from the encoding-derived pattern). -/
theorem error_propagation_counterexample :
    (runEncoderValidation [⟨['a'], 0, 2 ^ 32 - 1⟩]
        ⟨List.replicate 32 '0', HexField.value 1, HexField.value (2 ^ 32 - 1)⟩).errors
      = [VError.consistency] ∧
    (runEncoderValidation [⟨['a'], 0, 2 ^ 32 - 1⟩]
        ⟨List.replicate 32 '0', HexField.value 1, HexField.value (2 ^ 32 - 1)⟩).conflicts
      ≠ [] := by
  constructor
  · decide
  · have h1 : (runEncoderValidation [⟨['a'], 0, 2 ^ 32 - 1⟩]
        ⟨List.replicate 32 '0', HexField.value 1,
          HexField.value (2 ^ 32 - 1)⟩).conflicts
        = sortConflicts (computeConflicts 0 (2 ^ 32 - 1) [⟨['a'], 0, 2 ^ 32 - 1⟩]) := rfl
    have h2 : computeConflicts 0 (2 ^ 32 - 1) [⟨['a'], 0, 2 ^ 32 - 1⟩]
        = [⟨⟨['a'], 0, 2 ^ 32 - 1⟩, ConflictKind.identical, 2 ^ 32 - 1, 0⟩] := by
      decide
    rw [h1, h2, sortConflicts]
    simp

/-- Witness for C8: a fully-absent input yields no conflicts, and the
all-zeros token with a disagreeing supplied match shows the consistency
path. -/
theorem error_propagation_witness :
    ((runEncoderValidation [] ⟨[], HexField.empty, HexField.empty⟩).conflicts = []) ∧
    (VError.consistency ∈
        (runEncoderValidation []
          ⟨List.replicate 32 '0', HexField.value 1,
            HexField.value (2 ^ 32 - 1)⟩).errors ∧
      (runEncoderValidation []
          ⟨List.replicate 32 '0', HexField.value 1,
            HexField.value (2 ^ 32 - 1)⟩).proposed
        = some ⟨0 &&& BIT_MASK_32, (2 ^ 32 - 1) &&& BIT_MASK_32⟩ ∧
      (runEncoderValidation []
          ⟨List.replicate 32 '0', HexField.value 1,
            HexField.value (2 ^ 32 - 1)⟩).conflicts
        = sortConflicts
            (computeConflicts (0 &&& BIT_MASK_32) ((2 ^ 32 - 1) &&& BIT_MASK_32) [])) :=
  ⟨(error_propagation []).1 ⟨[], HexField.empty, HexField.empty⟩ (by decide),
   (error_propagation []).2 (List.replicate 32 '0') 1 (2 ^ 32 - 1) 0 (2 ^ 32 - 1)
     rfl (by decide)⟩

/-! ### Conflict ordering -/

theorem conflictLE_trans (a b c : Conflict) :
    conflictLE a b → conflictLE b c → conflictLE a c := by
  simp only [conflictLE, decide_eq_true_eq]
  omega

theorem conflictLE_total (a b : Conflict) : conflictLE a b || conflictLE b a := by
  simp only [conflictLE, Bool.or_eq_true, decide_eq_true_eq]
  omega

theorem sortConflicts_pairwise (l : List Conflict) :
    (sortConflicts l).Pairwise
      (fun a b => conflictKindOrder a.type ≤ conflictKindOrder b.type) := by
  have h := List.sorted_mergeSort conflictLE_trans conflictLE_total l
  exact h.imp (fun hab => by simpa [conflictLE] using hab)

theorem sortConflicts_filter_kind (l : List Conflict) (kind : ConflictKind) :
    (sortConflicts l).filter (fun c => decide (c.type = kind)) =
      l.filter (fun c => decide (c.type = kind)) := by
  have hpair : (l.filter (fun c => decide (c.type = kind))).Pairwise
      (fun a b => conflictLE a b = true) := by
    apply List.pairwise_of_forall_mem_list
    intro a ha b hb
    have ha' := List.of_mem_filter ha
    have hb' := List.of_mem_filter hb
    simp only [decide_eq_true_eq] at ha' hb'
    simp [conflictLE, ha', hb']
  have hsub1 : List.Sublist (l.filter (fun c => decide (c.type = kind)))
      (sortConflicts l) :=
    List.sublist_mergeSort conflictLE_trans conflictLE_total hpair (List.filter_sublist l)
  have hsub2 := hsub1.filter (fun c => decide (c.type = kind))
  have hff : (l.filter (fun c => decide (c.type = kind))).filter
      (fun c => decide (c.type = kind)) = l.filter (fun c => decide (c.type = kind)) := by
    rw [List.filter_filter]
    congr 1
    funext a
    exact Bool.and_self _
  rw [hff] at hsub2
  have hperm : List.Perm ((sortConflicts l).filter (fun c => decide (c.type = kind)))
      (l.filter (fun c => decide (c.type = kind))) :=
    (List.mergeSort_perm l conflictLE).filter _
  exact (hsub2.eq_of_length hperm.length_eq.symm).symm

theorem finalize_proposed_conflicts (e : List VError) (mm : Option (Nat × Nat))
    (catalog : List CatalogEntry) (p : ProposedPattern)
    (h : (finalizeValidation e mm catalog).proposed = some p) :
    (finalizeValidation e mm catalog).conflicts =
      sortConflicts (computeConflicts p.matchVal p.mask catalog) := by
  cases mm with
  | none => simp [finalizeValidation] at h
  | some q =>
    obtain ⟨pm, pk⟩ := q
    simp only [finalizeValidation, Option.some.injEq] at h
    subst h
    rfl

/-- Claim C7: in every validation result the conflict list is sorted by
the fixed kind priority `identical < proposedSubsetOfExisting <
existingSubsetOfProposed < partialOverlap`, and within each kind the
conflicts keep catalog iteration order (the order of `computeConflicts`). -/
theorem conflicts_sorted_and_stable (catalog : List CatalogEntry)
    (input : ValidatorInput) :
    (runEncoderValidation catalog input).conflicts.Pairwise
      (fun a b => conflictKindOrder a.type ≤ conflictKindOrder b.type) ∧
    ∀ p, (runEncoderValidation catalog input).proposed = some p →
      ∀ kind, (runEncoderValidation catalog input).conflicts.filter
          (fun c => decide (c.type = kind)) =
        (computeConflicts p.matchVal p.mask catalog).filter
          (fun c => decide (c.type = kind)) := by
  constructor
  · simp only [runEncoderValidation]
    cases hmm : (normalizePhase input).2 with
    | none => simp [finalizeValidation]
    | some q =>
      obtain ⟨pm, pk⟩ := q
      simp only [finalizeValidation]
      exact sortConflicts_pairwise _
  · intro p hp kind
    have hconf := finalize_proposed_conflicts (normalizePhase input).1
      (normalizePhase input).2 catalog p hp
    rw [show (runEncoderValidation catalog input).conflicts =
        (finalizeValidation (normalizePhase input).1 (normalizePhase input).2
          catalog).conflicts from rfl,
      hconf, sortConflicts_filter_kind]

/-- Witness for C7: a concrete two-entry catalog with a proposed pair. -/
theorem conflicts_sorted_and_stable_witness :
    ((runEncoderValidation [⟨['a'], 1, 2 ^ 32 - 1⟩, ⟨['b'], 5, 7⟩]
        ⟨[], HexField.value 5, HexField.value 7⟩).conflicts.Pairwise
      fun a b => conflictKindOrder a.type ≤ conflictKindOrder b.type) ∧
    (runEncoderValidation [⟨['a'], 1, 2 ^ 32 - 1⟩, ⟨['b'], 5, 7⟩]
        ⟨[], HexField.value 5, HexField.value 7⟩).conflicts.filter
        (fun c => decide (c.type = ConflictKind.identical)) =
      (computeConflicts 5 7 [⟨['a'], 1, 2 ^ 32 - 1⟩, ⟨['b'], 5, 7⟩]).filter
        (fun c => decide (c.type = ConflictKind.identical)) :=
  ⟨(conflicts_sorted_and_stable [⟨['a'], 1, 2 ^ 32 - 1⟩, ⟨['b'], 5, 7⟩]
      ⟨[], HexField.value 5, HexField.value 7⟩).1,
   (conflicts_sorted_and_stable [⟨['a'], 1, 2 ^ 32 - 1⟩, ⟨['b'], 5, 7⟩]
      ⟨[], HexField.value 5, HexField.value 7⟩).2 ⟨5, 7⟩ (by decide)
     ConflictKind.identical⟩
